import Mathlib

/-!
Verification development for the FXD agent-coordinator scripts
(`agent-coordinator/agent-context-manager.py`).

The Python module is shallowly embedded here:

* text is modelled as `List Char`; the few regular expressions used by the
  source (`@agent:\s*(\S+)`, `@timestamp:\s*(.+)`, `@task:\s*(.+)`,
  `@notes:\s*(.+)`, `\*\*Status:\*\*\s*([^|\n]+)`, and the literal patterns
  `- \[ \]` / `- \[x\]` counted by `re.findall`) are all of the shape
  "literal, then `\s*`, then a greedy positive character class", so one
  generic, executable search function (`searchGroup`) models Python's
  `re.search` for all of them, including its left-to-right scan over start
  positions and the backtracking between the greedy `\s*` and the class;
* file contents are lists of lines; a line that fails to decode is `none`,
  a file whose `open` fails is `none` at the outer level;
* the mutable manager object becomes explicit state passing
  (`MState`: the in-memory `self.agents` dict plus the on-disk context
  files written by `_save_context`), and Python exceptions become
  `Except` / explicit unchanged-state results.

Lines are modelled without their trailing `'\n'`.  Python's `readlines`
keeps the newline; the lemmas about the regex shapes above are stated so
that the trailing newline is irrelevant (it is whitespace, `.` and `\S`
never match it, and `[^|\n]` excludes it), so the newline-free model is
faithful.
-/

namespace FXD

/-- Text is a list of characters (Python `str`, ASCII in all inputs the
source manipulates). -/
abbrev Str := List Char

/-- Python's `\s` character class (and `str.strip` default set), restricted
to the ASCII whitespace characters: space, tab, newline, carriage return,
vertical tab, form feed. -/
def pyWs (c : Char) : Bool :=
  c == ' ' || c == '\t' || c == '\n' || c == '\r' || c == '\x0b' || c == '\x0c'

/-- If `pat` is a leading prefix of `s`, return the remainder of `s`
after it. -/
def matchLead : Str → Str → Option Str
  | [], s => some s
  | _ :: _, [] => none
  | p :: ps, c :: cs => if p = c then matchLead ps cs else none

/-- Text after the first occurrence of `pat` in `s` (`none` when `pat` does
not occur).  `(afterFirst pat s).isSome` is Python's `pat in s`. -/
def afterFirst (pat : Str) : Str → Option Str
  | [] => matchLead pat []
  | c :: cs =>
    match matchLead pat (c :: cs) with
    | some r => some r
    | none => afterFirst pat cs

/-- Python's substring containment test `pat in s`. -/
def containsPat (pat s : Str) : Bool := (afterFirst pat s).isSome

/-- Index of the last element of `l` satisfying `ok`, if any. -/
def lastIdxWhere (ok : Char → Bool) : Str → Option Nat
  | [] => none
  | c :: cs =>
    match lastIdxWhere ok cs with
    | some k => some (k + 1)
    | none => if ok c then some 0 else none

/-- One attempt of the tail `\s*(C+)` of the source's regexes against the
remainder `r` that follows the literal: the greedy `\s*` consumes the
maximal whitespace run and backtracks one character at a time until the
one-or-more class `C` (given by `ok`) can start, and `C+` then matches
greedily.  Returns the text captured by the group, or `none` when the
attempt at this start position fails. -/
def groupStart (ok : Char → Bool) (r : Str) : Option Str :=
  let wlen := (r.takeWhile pyWs).length
  match lastIdxWhere ok (r.take (wlen + 1)) with
  | none => none
  | some k => some ((r.drop k).takeWhile ok)

/-- Python `re.search` for a pattern of the shape `LIT\s*(C+)` (with `lit`
nonempty): scan start positions left to right; where the literal matches,
attempt `\s*(C+)` on the remainder; on failure continue with the next
start position.  Returns `.group(1)`, or `none` when there is no match
anywhere (in the source, calling `.group(1)` on that `None` raises
`AttributeError`). -/
def searchGroup (lit : Str) (ok : Char → Bool) : Str → Option Str
  | [] => none
  | c :: cs =>
    match matchLead lit (c :: cs) with
    | some r =>
      match groupStart ok r with
      | some g => some g
      | none => searchGroup lit ok cs
    | none => searchGroup lit ok cs

/-- Python `str.strip()` (whitespace from both ends). -/
def pyStrip (s : Str) : Str :=
  ((s.dropWhile pyWs).reverse.dropWhile pyWs).reverse

/-- Python `str.startswith`. -/
def startsWith : Str → Str → Bool
  | _, [] => true
  | [], _ :: _ => false
  | c :: cs, p :: ps => c == p && startsWith cs ps

/-- Helper for `countOcc`: scan left to right; `skip` counts characters of
an already-counted occurrence that are still to be consumed (`re.findall`
matches are non-overlapping). -/
def countOccAux (pat : Str) : Str → Nat → Nat
  | [], _ => 0
  | c :: cs, skip =>
    match skip with
    | Nat.succ k => countOccAux pat cs k
    | 0 =>
      match matchLead pat (c :: cs) with
      | some _ => 1 + countOccAux pat cs (pat.length - 1)
      | none => countOccAux pat cs 0

/-- `len(re.findall(pat, s))` for a literal pattern `pat`: the number of
non-overlapping occurrences of `pat` in `s`, scanning left to right. -/
def countOcc (pat : Str) (s : Str) : Nat := countOccAux pat s 0

example : countOcc "- [ ]".data "- [ ] a\n- [x] b\n- [ ] c".data = 2 := by decide
example : countOcc "- [x]".data "- [ ] a\n- [x] b\n- [ ] c".data = 1 := by decide
example : searchGroup "@task:".data (fun c => c != '\n') "// @task: T1 fix\n".data
    = some "T1 fix".data := by decide
example : pyStrip " T1 fix\n".data = "T1 fix".data := by decide
example : searchGroup "@agent:".data (fun c => !(pyWs c)) "// @agent: bob x".data
    = some "bob".data := by decide
example : searchGroup "@agent:".data (fun c => !(pyWs c)) "// @agent:  \n".data
    = none := by decide
example : searchGroup "@task:".data (fun c => c != '\n') "// @task:".data
    = none := by decide
example : searchGroup "@task:".data (fun c => c != '\n') "// @task:  ".data
    = some " ".data := by decide

/-! ## Annotation scanner (`scan_code_annotations`, `update_annotations_index`) -/

/-- `CodeAnnotation` dataclass of the source. -/
structure CodeAnnotation where
  file_path : Str
  line_number : Nat
  agent_name : Str
  timestamp : Str
  task_ref : Str
  notes : Str
deriving DecidableEq

/-- Anchor marker literal `@agent:`. -/
def agentMark : Str := "@agent:".data

/-- Companion marker literal `@timestamp:`. -/
def tsMark : Str := "@timestamp:".data

/-- Companion marker literal `@task:`. -/
def taskMark : Str := "@task:".data

/-- Companion marker literal `@notes:`. -/
def notesMark : Str := "@notes:".data

/-- One companion-marker line check of the lookahead loop:
`if MARKER in line: field = re.search(r'MARKER\s*(.+)', line).group(1).strip()`.
Returns the (possibly updated) field value, or `none` when the line contains
the marker but the regex finds no match, so that `.group(1)` raises
`AttributeError`. -/
def fieldUpd (marker line cur : Str) : Option Str :=
  if containsPat marker line then
    match searchGroup marker (fun c => c != '\n') line with
    | none => none
    | some g => some (pyStrip g)
  else some cur

/-- The lookahead loop body of `scan_code_annotations`, run over the window
of lines `for i in range(line_num, min(line_num + 5, len(lines)))`, updating
the `(timestamp, task_ref, notes)` accumulators in source order.  `none`
models the uncaught `AttributeError` described at `fieldUpd`. -/
def lookahead : List Str → Str × Str × Str → Option (Str × Str × Str)
  | [], acc => some acc
  | line :: rest, (ts, tk, nt) =>
    match fieldUpd tsMark line ts with
    | none => none
    | some ts' =>
      match fieldUpd taskMark line tk with
      | none => none
      | some tk' =>
        match fieldUpd notesMark line nt with
        | none => none
        | some nt' => lookahead rest (ts', tk', nt')

/-- The anchor test of the outer scan loop:
`if '@agent:' in line:` then `re.search(r'@agent:\s*(\S+)', line)`; the
annotation is produced only `if match:` — so both a missing marker and a
marker with no following token yield `none` and the loop just continues. -/
def anchorAgent (line : Str) : Option Str :=
  if containsPat agentMark line then
    searchGroup agentMark (fun c => !(pyWs c)) line
  else none

/-- `f.readlines()` on the already-open file: succeeds with all lines iff
every line of the file decodes; any undecodable line raises
`UnicodeDecodeError` (modelled as `none`). -/
def allDecoded : List (Option Str) → Option (List Str)
  | [] => some []
  | none :: _ => none
  | some l :: rest => (allDecoded rest).map (l :: ·)

/-- The outer `for line_num, line in enumerate(f, 1)` loop of
`scan_code_annotations`.  `file` is the whole file (re-read by
`f.seek(0); f.readlines()` at an anchor), `todo` the lines the iterator has
still to yield, `lineNum` the 1-based number of the next line.  The result
pairs the returned annotation list with a flag recording whether the
`except` branch ran (the source then logs the error and still returns
normally).

Note a consequence of the source's `f.seek(0); f.readlines()` inside the
loop: after the first produced annotation the file object is at EOF, so the
outer iteration stops — at most one annotation (the first anchor's) is ever
produced per file. -/
def scanGo (path : Str) (file : List (Option Str)) :
    List (Option Str) → Nat → List CodeAnnotation × Bool
  | [], _ => ([], false)
  | none :: _, _ => ([], true)
  | some line :: rest, lineNum =>
    match anchorAgent line with
    | none => scanGo path file rest (lineNum + 1)
    | some agent =>
      match allDecoded file with
      | none => ([], true)
      | some lines =>
        match lookahead ((lines.drop lineNum).take 5) ([], [], []) with
        | none => ([], true)
        | some (ts, tk, nt) =>
          ([⟨path, lineNum, agent, ts, tk, nt⟩], false)

/-- `scan_code_annotations(file_path)`: `none` for the file means `open`
itself failed (e.g. the file is missing or unreadable); a `none` line means
that line does not decode as UTF-8.  Every raised exception is caught by
the function's `except` branch, which logs and returns the annotations
collected so far (always `[]`, see `scanGo`). -/
def scan_code_annotations (path : Str) (file : Option (List (Option Str))) :
    List CodeAnnotation × Bool :=
  match file with
  | none => ([], true)
  | some ls => scanGo path ls ls 1

/-- First-key lookup in an association list — Python `dict` indexing /
`in` test (the lists built here never hold a key twice). -/
def lookupA {α : Type} : List (Str × α) → Str → Option α
  | [], _ => none
  | (k0, v0) :: rest, k => if k0 = k then some v0 else lookupA rest k

/-- Key update in an association list — Python `d[k] = v`: replaces the
value of an existing key in place, otherwise appends. -/
def insertA {α : Type} : List (Str × α) → Str → α → List (Str × α)
  | [], k, v => [(k, v)]
  | (k0, v0) :: rest, k, v =>
    if k0 = k then (k, v) :: rest else (k0, v0) :: insertA rest k v

/-- The skip test of `update_annotations_index`:
`any(skip in str(ts_file) for skip in ['node_modules', 'dist', '.git'])`. -/
def skipPath (p : Str) : Bool :=
  containsPat "node_modules".data p || containsPat "dist".data p ||
    containsPat ".git".data p

/-- `update_annotations_index()`: `idx` is the manager's current
`self.annotations`; `files` the `**/*.ts` glob result as (path, content)
pairs.  For each non-skipped file the scan runs, and only a non-empty
result is written into the index (`if annotations:`); the prior index is
NOT cleared first. -/
def update_annotations_index
    (idx : List (Str × List CodeAnnotation))
    (files : List (Str × Option (List (Option Str)))) :
    List (Str × List CodeAnnotation) :=
  files.foldl
    (fun acc pf =>
      if skipPath pf.1 then acc
      else
        let anns := (scan_code_annotations pf.1 pf.2).1
        if anns = [] then acc else insertA acc pf.1 anns)
    idx

/-! ## Context store (`register_agent`, `add_message`, `_trim_context`,
`load_context`) -/

/-- A message dict as built by `add_message` (all four keys always
present, so `removed.get('tokens', 0)` in `_trim_context` never takes its
default for these messages). -/
structure Message where
  role : Str
  content : Str
  timestamp : Str
  tokens : Int
deriving DecidableEq

/-- `AgentContext` dataclass of the source (`max_tokens` defaults to
200000, `messages` to `[]` via `__post_init__`). -/
structure AgentContext where
  agent_name : Str
  timestamp : Str
  task_file : Str
  current_tokens : Int
  max_tokens : Int
  messages : List Message
deriving DecidableEq

/-- Sum of the `tokens` values of a message list. -/
def sumTokens : List Message → Int
  | [] => 0
  | m :: ms => m.tokens + sumTokens ms

/-- Manager state: the in-memory `self.agents` dict and the per-agent
context files written by `_save_context` (JSON round-trips these records
exactly, so the disk copy is modelled as the record itself). -/
structure MState where
  agents : List (Str × AgentContext)
  disk : List (Str × AgentContext)
deriving DecidableEq

/-- The empty manager over a fresh directory (no contexts persisted). -/
def initState : MState := ⟨[], []⟩

/-- `register_agent(agent_name, task_file)`; `ts` is
`datetime.now().isoformat()`.  Overwrites any existing record and persists
immediately. -/
def register_agent (st : MState) (name task ts : Str) : MState :=
  let ctx : AgentContext := ⟨name, ts, task, 0, 200000, []⟩
  ⟨insertA st.agents name ctx, insertA st.disk name ctx⟩

/-- The `while` loop of `_trim_context`, after the entry check that at
least two messages exist: `m0` is the pinned index-0 message, the list
argument the messages after it.  While `current_tokens > target` and more
than one message remains, pop index 1 and subtract its token cost. -/
def trimGo (target : Int) (m0 : Message) : List Message → Int → List Message × Int
  | [], cur => ([m0], cur)
  | m1 :: rest, cur =>
    if cur > target then trimGo target m0 rest (cur - m1.tokens)
    else (m0 :: m1 :: rest, cur)

/-- `_trim_context` on one context record: `target = max_tokens - 20000`;
repeatedly remove `messages.pop(1)` (index 0 is kept) while over target and
more than one message remains.  Total — the loop always terminates since
each iteration shortens the list. -/
def _trim_context (ctx : AgentContext) : AgentContext :=
  let target := ctx.max_tokens - 20000
  match ctx.messages with
  | m0 :: m1 :: rest =>
    let p := trimGo target m0 (m1 :: rest) ctx.current_tokens
    { ctx with messages := p.1, current_tokens := p.2 }
  | _ => ctx

/-- `add_message(agent_name, role, content, tokens)`; `ts` is
`datetime.now().isoformat()`.  Raises
`ValueError(f"Agent {agent_name} not registered")` for an unknown agent;
otherwise appends the message, adds its cost, trims if the total exceeds
`max_tokens`, and persists. -/
def add_message (st : MState) (name role content ts : Str) (tokens : Int) :
    Except Str MState :=
  match lookupA st.agents name with
  | none => .error ("Agent ".data ++ name ++ " not registered".data)
  | some ctx =>
    let msg : Message := ⟨role, content, ts, tokens⟩
    let ctx1 := { ctx with
      messages := ctx.messages ++ [msg]
      current_tokens := ctx.current_tokens + tokens }
    let ctx2 := if ctx1.current_tokens > ctx1.max_tokens then _trim_context ctx1 else ctx1
    .ok ⟨insertA st.agents name ctx2, insertA st.disk name ctx2⟩

/-- `load_context(agent_name)`: returns the persisted record if its file
exists, else `None`.  The body only reads; it assigns nothing on `self`. -/
def load_context (st : MState) (name : Str) : Option AgentContext :=
  lookupA st.disk name

/-- The store operations a run can perform, in source terms:
`register_agent`, `add_message`, `_trim_context(agent_name)` (the CLI
`trim` path), and `load_context`. -/
inductive Op where
  | register (name task ts : Str)
  | addMsg (name role content ts : Str) (tokens : Int)
  | trim (name : Str)
  | load (name : Str)

/-- The CLI `trim` path: `self.agents[agent_name]` raises `KeyError` for an
unknown name (state unchanged); otherwise the record is trimmed and
persisted. -/
def trim_op (st : MState) (name : Str) : MState :=
  match lookupA st.agents name with
  | none => st
  | some ctx =>
    let ctx' := _trim_context ctx
    ⟨insertA st.agents name ctx', insertA st.disk name ctx'⟩

/-- State transition of one operation.  A raised exception (`ValueError`,
`KeyError`) propagates to the caller with the state unchanged;
`load_context` performs no mutation. -/
def applyOp (st : MState) : Op → MState
  | .register n t ts => register_agent st n t ts
  | .addMsg n r c ts k =>
    match add_message st n r c ts k with
    | .ok st' => st'
    | .error _ => st
  | .trim n => trim_op st n
  | .load _ => st

/-- Run a sequence of operations from the fresh-directory state. -/
def runOps (ops : List Op) : MState := ops.foldl applyOp initState

/-! ## Relevance lookup and task status -/

/-- One entry of the list built by `get_relevant_context`. -/
structure RelEntry where
  agent : Str
  task : Str
  message : Message
  notes : Str
deriving DecidableEq

/-- The annotation loop of `get_relevant_context`: for each annotation by a
different agent, load that agent's persisted context and keep the messages
whose timestamp starts with the annotation timestamp's first 10 characters
(the calendar-day prefix `ann.timestamp[:10]`). -/
def relevantFor (st : MState) (agent : Str) : List CodeAnnotation → List RelEntry
  | [] => []
  | ann :: rest =>
    (if ann.agent_name ≠ agent then
      match load_context st ann.agent_name with
      | none => []
      | some other =>
        (other.messages.filter
            (fun m => startsWith m.timestamp (ann.timestamp.take 10))).map
          (fun m => ⟨ann.agent_name, ann.task_ref, m, ann.notes⟩)
    else []) ++ relevantFor st agent rest

/-- `get_relevant_context(agent_name, file_path)` over the manager's
annotation index `anns`. -/
def get_relevant_context (st : MState) (anns : List (Str × List CodeAnnotation))
    (agent fp : Str) : List RelEntry :=
  match lookupA anns fp with
  | some l => relevantFor st agent l
  | none => []

/-- The record returned by `get_task_status` when the task file exists. -/
structure TaskStatus where
  total_tasks : Nat
  completed : Nat
  progress : Str
  status : Str
deriving DecidableEq

/-- Decimal digits of `n` (Python's f-string rendering of an `int`). -/
def natToStr (n : Nat) : Str := Nat.toDigits 10 n

/-- `get_task_status(task_file)`: `none` content means the path does not
exist (`{"status": "not_found"}` in the source); otherwise count the
unchecked `- [ ]` and checked `- [x]` markers with `re.findall`, extract
the `**Status:**` field with `re.search(r'\*\*Status:\*\*\s*([^|\n]+)')`
(default `"Unknown"`), and format `progress` as
`f"{completed}/{total_tasks}"`. -/
def get_task_status (content : Option Str) : Option TaskStatus :=
  match content with
  | none => none
  | some s =>
    let total_tasks := countOcc "- [ ]".data s
    let completed := countOcc "- [x]".data s
    let status :=
      match searchGroup "**Status:**".data (fun c => c != '|' && c != '\n') s with
      | some g => pyStrip g
      | none => "Unknown".data
    some ⟨total_tasks, completed,
      natToStr completed ++ "/".data ++ natToStr total_tasks, status⟩

example :
    scan_code_annotations "a.ts".data
      (some (["// @agent: bob".data, "// @task: T1".data].map some))
    = ([⟨"a.ts".data, 1, "bob".data, [], "T1".data, []⟩], false) := by decide

example :
    scan_code_annotations "a.ts".data (some [some "// @agent: bob".data, none])
    = ([], true) := by decide

example :
    get_task_status (some "- [ ] a\n- [x] b\n- [ ] c\n".data)
    = some ⟨2, 1, "1/2".data, "Unknown".data⟩ := by decide

/-! ## Association-list and token-sum lemmas -/

theorem lookupA_insertA {α : Type} (m : List (Str × α)) (k : Str) (v : α) (p : Str) :
    lookupA (insertA m k v) p = if k = p then some v else lookupA m p := by
  induction m with
  | nil => simp [insertA, lookupA]
  | cons hd tl ih =>
    obtain ⟨k0, v0⟩ := hd
    by_cases h0 : k0 = k
    · subst h0
      by_cases hp : k0 = p <;> simp [insertA, lookupA, hp]
    · by_cases hp : k0 = p
      · have hkp : ¬ k = p := fun h => h0 (hp.trans h.symm)
        have hpk : ¬ p = k := fun h => hkp h.symm
        simp [insertA, lookupA, h0, hp, hkp, hpk]
      · simp [insertA, lookupA, h0, hp, ih]

theorem sumTokens_append (l1 l2 : List Message) :
    sumTokens (l1 ++ l2) = sumTokens l1 + sumTokens l2 := by
  induction l1 with
  | nil => simp [sumTokens]
  | cons m ms ih => simp [sumTokens, ih]; ring

theorem sumTokens_take_drop (l : List Message) (k : Nat) :
    sumTokens (l.take k) + sumTokens (l.drop k) = sumTokens l := by
  rw [← sumTokens_append, List.take_append_drop]

/-- Full characterisation of the trim loop: some count `k` of messages is
removed from position 1; the counter drops by their summed cost; the loop
stops over budget only when a single message remains; and every removal
happened while the running total was still over target. -/
theorem trimGo_spec (target : Int) (m0 : Message) (l : List Message) (cur : Int) :
    ∃ k, (trimGo target m0 l cur).1 = m0 :: l.drop k ∧
      (trimGo target m0 l cur).2 = cur - sumTokens (l.take k) ∧
      ((trimGo target m0 l cur).2 ≤ target ∨ l.drop k = []) ∧
      (∀ j < k, cur - sumTokens (l.take j) > target) := by
  induction l generalizing cur with
  | nil =>
    refine ⟨0, ?_, ?_, ?_, ?_⟩ <;> simp [trimGo, sumTokens]
  | cons m1 rest ih =>
    by_cases h : cur > target
    · obtain ⟨k', h1, h2, h3, h4⟩ := ih (cur - m1.tokens)
      refine ⟨k' + 1, ?_, ?_, ?_, ?_⟩
      · simpa [trimGo, if_pos h] using h1
      · rw [show trimGo target m0 (m1 :: rest) cur = trimGo target m0 rest (cur - m1.tokens)
          by simp [trimGo, if_pos h]]
        rw [h2]
        simp [sumTokens]
        ring
      · rw [show trimGo target m0 (m1 :: rest) cur = trimGo target m0 rest (cur - m1.tokens)
          by simp [trimGo, if_pos h]]
        simpa using h3
      · intro j hj
        match j with
        | 0 => simpa [sumTokens] using h
        | Nat.succ j' =>
          have := h4 j' (by omega)
          simp only [List.take_succ_cons, sumTokens] at *
          omega
    · refine ⟨0, ?_, ?_, ?_, ?_⟩
      · simp [trimGo, if_neg h]
      · simp [trimGo, if_neg h, sumTokens]
      · left
        simp [trimGo, if_neg h]
        omega
      · intro j hj
        omega

/-- C2: on a nonempty context, `_trim_context` keeps the message at
position 0, always leaves at least one message, stops exactly when the
running total is at most `max_token_count - 20000` or a single message
remains (each removal was taken from position 1 while still over target),
and being a total function it terminates and raises nothing even when the
one remaining message is still over budget. -/
theorem c2_trim_policy (ctx : AgentContext) (h : ctx.messages ≠ []) :
    (_trim_context ctx).messages.head? = ctx.messages.head? ∧
    1 ≤ (_trim_context ctx).messages.length ∧
    ((_trim_context ctx).current_tokens ≤ ctx.max_tokens - 20000 ∨
      (_trim_context ctx).messages.length = 1) ∧
    ∃ k,
      (_trim_context ctx).messages
        = ctx.messages.take 1 ++ (ctx.messages.drop 1).drop k ∧
      (_trim_context ctx).current_tokens
        = ctx.current_tokens - sumTokens ((ctx.messages.drop 1).take k) ∧
      ∀ j < k, ctx.current_tokens - sumTokens ((ctx.messages.drop 1).take j)
        > ctx.max_tokens - 20000 := by
  match hm : ctx.messages with
  | [] => exact absurd hm h
  | [m] =>
    have ht : _trim_context ctx = ctx := by
      unfold _trim_context
      rw [hm]
    rw [ht, hm]
    refine ⟨rfl, by simp, Or.inr (by simp), 0, by simp, by simp [sumTokens], by omega⟩
  | m0 :: m1 :: rest =>
    obtain ⟨k, h1, h2, h3, h4⟩ :=
      trimGo_spec (ctx.max_tokens - 20000) m0 (m1 :: rest) ctx.current_tokens
    have ht : _trim_context ctx =
        { ctx with
          messages := (trimGo (ctx.max_tokens - 20000) m0 (m1 :: rest) ctx.current_tokens).1
          current_tokens := (trimGo (ctx.max_tokens - 20000) m0 (m1 :: rest) ctx.current_tokens).2 } := by
      unfold _trim_context
      rw [hm]
    rw [ht]
    refine ⟨?_, ?_, ?_, k, ?_, ?_, ?_⟩
    · simp [h1]
    · simp [h1]
    · rcases h3 with h3 | h3
      · exact Or.inl h3
      · right
        simp [h1, h3]
    · simp [h1]
    · simpa using h2
    · simpa using h4

/-- Witness for `c2_trim_policy` at the context reached in the spec's
worked example just before trimming (costs 0, 50000, 80000, 90000; total
220000; target 180000): the head is kept, trimming stops over-target-free
at 170000 with one message (the 50000 one) removed. -/
theorem c2_trim_policy_witness :
    ((_trim_context ⟨"a".data, "ts".data, "t".data, 220000, 200000,
        [⟨"system".data, "s".data, "ts".data, 0⟩,
         ⟨"user".data, "u1".data, "ts".data, 50000⟩,
         ⟨"user".data, "u2".data, "ts".data, 80000⟩,
         ⟨"user".data, "u3".data, "ts".data, 90000⟩]⟩).messages.head?
      = some ⟨"system".data, "s".data, "ts".data, 0⟩) ∧
    ((_trim_context ⟨"a".data, "ts".data, "t".data, 220000, 200000,
        [⟨"system".data, "s".data, "ts".data, 0⟩,
         ⟨"user".data, "u1".data, "ts".data, 50000⟩,
         ⟨"user".data, "u2".data, "ts".data, 80000⟩,
         ⟨"user".data, "u3".data, "ts".data, 90000⟩]⟩).current_tokens ≤ 180000 ∨
      (_trim_context ⟨"a".data, "ts".data, "t".data, 220000, 200000,
        [⟨"system".data, "s".data, "ts".data, 0⟩,
         ⟨"user".data, "u1".data, "ts".data, 50000⟩,
         ⟨"user".data, "u2".data, "ts".data, 80000⟩,
         ⟨"user".data, "u3".data, "ts".data, 90000⟩]⟩).messages.length = 1) := by
  have h := c2_trim_policy ⟨"a".data, "ts".data, "t".data, 220000, 200000,
    [⟨"system".data, "s".data, "ts".data, 0⟩,
     ⟨"user".data, "u1".data, "ts".data, 50000⟩,
     ⟨"user".data, "u2".data, "ts".data, 80000⟩,
     ⟨"user".data, "u3".data, "ts".data, 90000⟩]⟩ (by decide)
  exact ⟨by simpa using h.1, by simpa using h.2.2.1⟩

/-! ## The token-counter invariant (C1) -/

/-- One context record satisfies the counter invariant. -/
def ctxInv (c : AgentContext) : Prop := c.current_tokens = sumTokens c.messages

/-- Every record held in memory or on disk satisfies the invariant. -/
def stInv (st : MState) : Prop :=
  (∀ n c, lookupA st.agents n = some c → ctxInv c) ∧
  (∀ n c, lookupA st.disk n = some c → ctxInv c)

theorem ctxInv_trim (c : AgentContext) (h : ctxInv c) : ctxInv (_trim_context c) := by
  match hm : c.messages with
  | [] =>
    have ht : _trim_context c = c := by
      unfold _trim_context
      rw [hm]
    rw [ht]
    exact h
  | [m] =>
    have ht : _trim_context c = c := by
      unfold _trim_context
      rw [hm]
    rw [ht]
    exact h
  | m0 :: m1 :: rest =>
    obtain ⟨k, h1, h2, _, _⟩ :=
      trimGo_spec (c.max_tokens - 20000) m0 (m1 :: rest) c.current_tokens
    have ht : _trim_context c =
        { c with
          messages := (trimGo (c.max_tokens - 20000) m0 (m1 :: rest) c.current_tokens).1
          current_tokens := (trimGo (c.max_tokens - 20000) m0 (m1 :: rest) c.current_tokens).2 } := by
      unfold _trim_context
      rw [hm]
    have hsum := sumTokens_take_drop (m1 :: rest) k
    have hc : c.current_tokens = sumTokens (m0 :: m1 :: rest) := by rw [h, hm]
    rw [ctxInv] at *
    rw [ht]
    simp only [h1, h2, sumTokens] at *
    omega

theorem stInv_applyOp (st : MState) (op : Op) (h : stInv st) : stInv (applyOp st op) := by
  obtain ⟨hmem, hdisk⟩ := h
  cases op with
  | register name task ts =>
    constructor <;>
      · intro n c
        simp only [applyOp, register_agent, lookupA_insertA]
        by_cases hn : name = n
        · rw [if_pos hn]
          rintro ⟨rfl⟩
          simp [ctxInv, sumTokens]
        · rw [if_neg hn]
          first
            | exact hmem n c
            | exact hdisk n c
  | addMsg name role content ts tokens =>
    simp only [applyOp, add_message]
    match hl : lookupA st.agents name with
    | none => exact ⟨hmem, hdisk⟩
    | some ctx =>
      have hctx : ctxInv ctx := hmem name ctx hl
      set msg : Message := ⟨role, content, ts, tokens⟩ with hmsg
      set ctx1 : AgentContext := { ctx with
        messages := ctx.messages ++ [msg]
        current_tokens := ctx.current_tokens + tokens } with hctx1
      have h1 : ctxInv ctx1 := by
        rw [ctxInv] at *
        simp only [hctx1, sumTokens_append, sumTokens]
        omega
      have h2 : ctxInv (if ctx1.current_tokens > ctx1.max_tokens then _trim_context ctx1 else ctx1) := by
        by_cases hc : ctx1.current_tokens > ctx1.max_tokens
        · rw [if_pos hc]
          exact ctxInv_trim ctx1 h1
        · rw [if_neg hc]
          exact h1
      constructor <;>
        · intro n c
          simp only [lookupA_insertA]
          by_cases hn : name = n
          · rw [if_pos hn]
            rintro ⟨rfl⟩
            exact h2
          · rw [if_neg hn]
            first
              | exact hmem n c
              | exact hdisk n c
  | trim name =>
    simp only [applyOp, trim_op]
    match hl : lookupA st.agents name with
    | none => exact ⟨hmem, hdisk⟩
    | some ctx =>
      have hctx : ctxInv (_trim_context ctx) := ctxInv_trim ctx (hmem name ctx hl)
      constructor <;>
        · intro n c
          simp only [lookupA_insertA]
          by_cases hn : name = n
          · rw [if_pos hn]
            rintro ⟨rfl⟩
            exact hctx
          · rw [if_neg hn]
            first
              | exact hmem n c
              | exact hdisk n c
  | load name => exact ⟨hmem, hdisk⟩

theorem stInv_foldl (ops : List Op) (st : MState) (h : stInv st) :
    stInv (ops.foldl applyOp st) := by
  induction ops generalizing st with
  | nil => exact h
  | cons op rest ih => exact ih (applyOp st op) (stInv_applyOp st op h)

theorem stInv_runOps (ops : List Op) : stInv (runOps ops) := by
  refine stInv_foldl ops initState ⟨?_, ?_⟩ <;>
    · intro n c hc
      simp [initState, lookupA] at hc

/-- C1: after any sequence of register / add-message / trim operations,
every agent's in-memory (and persisted) token counter equals the sum of
the token costs of the messages its record retains. -/
theorem c1_token_counter_invariant (ops : List Op) (name : Str) (ctx : AgentContext)
    (h : lookupA (runOps ops).agents name = some ctx) :
    ctx.current_tokens = sumTokens ctx.messages :=
  (stInv_runOps ops).1 name ctx h

/-- Witness for `c1_token_counter_invariant`: a register followed by two
appends and a direct trim; the looked-up record's counter equals its
messages' summed cost. -/
theorem c1_token_counter_invariant_witness :
    (⟨"a".data, "ts".data, "t".data, 70, 200000,
        [⟨"system".data, "s".data, "ts".data, 30⟩,
         ⟨"user".data, "u".data, "ts".data, 40⟩]⟩ : AgentContext).current_tokens
      = sumTokens [⟨"system".data, "s".data, "ts".data, 30⟩,
         ⟨"user".data, "u".data, "ts".data, 40⟩] :=
  c1_token_counter_invariant
    [Op.register "a".data "t".data "ts".data,
     Op.addMsg "a".data "system".data "s".data "ts".data 30,
     Op.addMsg "a".data "user".data "u".data "ts".data 40,
     Op.trim "a".data]
    "a".data
    ⟨"a".data, "ts".data, "t".data, 70, 200000,
      [⟨"system".data, "s".data, "ts".data, 30⟩,
       ⟨"user".data, "u".data, "ts".data, 40⟩]⟩
    (by decide)

/-! ## The worked trimming example (C5) -/

/-- C5: with `max_token_count = 200000`, appending messages of costs 0,
50000, 80000, 90000 to a fresh agent leaves costs [0, 50000, 80000] and
total 130000 after three appends (no trim yet), and the fourth append
(total 220000 > 200000) triggers the trim with target 180000, which
removes exactly the 50000-cost message: final costs [0, 80000, 90000],
counter 170000. -/
theorem c5_trim_example :
    ((lookupA (runOps
        [Op.register "a".data "t".data "ts".data,
         Op.addMsg "a".data "system".data "s".data "ts".data 0,
         Op.addMsg "a".data "user".data "u1".data "ts".data 50000,
         Op.addMsg "a".data "user".data "u2".data "ts".data 80000]).agents "a".data).map
      (fun c => (c.messages.map Message.tokens, c.current_tokens))
        = some ([0, 50000, 80000], 130000)) ∧
    ((lookupA (runOps
        [Op.register "a".data "t".data "ts".data,
         Op.addMsg "a".data "system".data "s".data "ts".data 0,
         Op.addMsg "a".data "user".data "u1".data "ts".data 50000,
         Op.addMsg "a".data "user".data "u2".data "ts".data 80000,
         Op.addMsg "a".data "user".data "u3".data "ts".data 90000]).agents "a".data).map
      (fun c => (c.messages.map Message.tokens, c.current_tokens))
        = some ([0, 80000, 90000], 170000)) := by decide

/-! ## Unknown agent on append (C6) -/

/-- C6: appending to an unregistered agent fails with the source's
`ValueError` message and leaves the store state unchanged; appending to a
registered agent returns normally. -/
theorem c6_append_unknown_agent (st : MState) (name role content ts : Str) (tokens : Int) :
    (lookupA st.agents name = none →
      add_message st name role content ts tokens
          = Except.error ("Agent ".data ++ name ++ " not registered".data) ∧
        applyOp st (Op.addMsg name role content ts tokens) = st) ∧
    (∀ ctx, lookupA st.agents name = some ctx →
      ∃ st', add_message st name role content ts tokens = Except.ok st') := by
  constructor
  · intro h
    constructor
    · simp [add_message, h]
    · simp [applyOp, add_message, h]
  · intro ctx h
    unfold add_message
    rw [h]
    exact ⟨_, rfl⟩

/-- Witness for `c6_append_unknown_agent`: on the fresh store the append
errors with the state intact; after registering the same name it
succeeds. -/
theorem c6_append_unknown_agent_witness :
    (add_message initState "a".data "user".data "m".data "ts".data 5
        = Except.error ("Agent ".data ++ "a".data ++ " not registered".data) ∧
      applyOp initState (Op.addMsg "a".data "user".data "m".data "ts".data 5) = initState) ∧
    (∃ st', add_message (register_agent initState "a".data "t".data "ts".data)
        "a".data "user".data "m".data "ts".data 5 = Except.ok st') := by
  constructor
  · exact (c6_append_unknown_agent initState "a".data "user".data "m".data "ts".data 5).1
      (by decide)
  · exact (c6_append_unknown_agent (register_agent initState "a".data "t".data "ts".data)
      "a".data "user".data "m".data "ts".data 5).2
      ⟨"a".data, "ts".data, "t".data, 0, 200000, []⟩ (by decide)

/-! ## Loading a never-persisted agent (C8) -/

/-- Does this operation register `name` (the only way a context file for
`name` ever gets created from a fresh directory)? -/
def opRegisters (name : Str) : Op → Bool
  | .register n _ _ => decide (n = name)
  | _ => false

theorem applyOp_preserves_absent (st : MState) (op : Op) (name : Str)
    (h1 : lookupA st.agents name = none) (h2 : lookupA st.disk name = none)
    (hop : opRegisters name op = false) :
    lookupA (applyOp st op).agents name = none ∧
    lookupA (applyOp st op).disk name = none := by
  cases op with
  | register n t ts =>
    have hn : ¬ n = name := by simpa [opRegisters] using hop
    simp [applyOp, register_agent, lookupA_insertA, hn, h1, h2]
  | addMsg n r c ts k =>
    simp only [applyOp, add_message]
    match hl : lookupA st.agents n with
    | none => exact ⟨h1, h2⟩
    | some ctx =>
      have hn : ¬ n = name := by
        intro h
        rw [h] at hl
        rw [h1] at hl
        exact Option.noConfusion hl
      simp [lookupA_insertA, hn, h1, h2]
  | trim n =>
    simp only [applyOp, trim_op]
    match hl : lookupA st.agents n with
    | none => exact ⟨h1, h2⟩
    | some ctx =>
      have hn : ¬ n = name := by
        intro h
        rw [h] at hl
        rw [h1] at hl
        exact Option.noConfusion hl
      simp [lookupA_insertA, hn, h1, h2]
  | load n => exact ⟨h1, h2⟩

theorem absent_foldl (name : Str) (ops : List Op) :
    ∀ st : MState, lookupA st.agents name = none → lookupA st.disk name = none →
    (∀ op ∈ ops, opRegisters name op = false) →
    lookupA (ops.foldl applyOp st).agents name = none ∧
    lookupA (ops.foldl applyOp st).disk name = none := by
  induction ops with
  | nil => exact fun st h1 h2 _ => ⟨h1, h2⟩
  | cons op rest ih =>
    intro st h1 h2 hops
    have hstep := applyOp_preserves_absent st op name h1 h2
      (hops op (List.mem_cons_self op rest))
    exact ih (applyOp st op) hstep.1 hstep.2
      (fun o ho => hops o (List.mem_cons_of_mem op ho))

/-- C8: for an agent name that no operation of the run ever registered
(so no context file for it was ever persisted from the fresh directory),
`load_context` returns the not-found result `None` — it does not throw —
and, being a pure read, it leaves the store state unchanged. -/
theorem c8_load_never_persisted (ops : List Op) (name : Str)
    (h : ∀ op ∈ ops, opRegisters name op = false) :
    load_context (runOps ops) name = none ∧
    applyOp (runOps ops) (Op.load name) = runOps ops := by
  have habs := absent_foldl name ops initState (by simp [initState, lookupA])
    (by simp [initState, lookupA]) h
  exact ⟨habs.2, rfl⟩

/-- Witness for `c8_load_never_persisted`: a run that registers agent "b"
and tries (and fails) to append to "a" never persists "a", so loading "a"
yields `none` and mutates nothing. -/
theorem c8_load_never_persisted_witness :
    load_context (runOps [Op.register "b".data "t".data "ts".data,
        Op.addMsg "a".data "user".data "m".data "ts".data 5]) "a".data = none ∧
    applyOp (runOps [Op.register "b".data "t".data "ts".data,
        Op.addMsg "a".data "user".data "m".data "ts".data 5]) (Op.load "a".data)
      = runOps [Op.register "b".data "t".data "ts".data,
        Op.addMsg "a".data "user".data "m".data "ts".data 5] :=
  c8_load_never_persisted
    [Op.register "b".data "t".data "ts".data,
     Op.addMsg "a".data "user".data "m".data "ts".data 5]
    "a".data (by decide)

/-! ## Failing files never abort a scan (C7) -/

theorem allDecoded_eq_none (ls : List (Option Str)) (h : none ∈ ls) :
    allDecoded ls = none := by
  induction ls with
  | nil => simp at h
  | cons hd tl ih =>
    match hd with
    | none => rfl
    | some l =>
      have htl : none ∈ tl := by simpa using h
      simp [allDecoded, ih htl]

theorem scanGo_bad (path : Str) (file : List (Option Str)) (hf : none ∈ file) :
    ∀ (l : List (Option Str)) (n : Nat), none ∈ l → scanGo path file l n = ([], true) := by
  intro l
  induction l with
  | nil =>
    intro n hn
    simp at hn
  | cons hd tl ih =>
    intro n hn
    match hd with
    | none => rfl
    | some line =>
      have htl : none ∈ tl := by simpa using hn
      cases ha : anchorAgent line with
      | none =>
        simp only [scanGo, ha]
        exact ih (n + 1) htl
      | some agent => simp [scanGo, ha, allDecoded_eq_none file hf]

/-- C7: a file whose open fails, or any of whose lines fails to decode,
yields zero annotations together with a logged error; the exception is
caught inside `scan_code_annotations` (never propagated), and such a file
contributes nothing to — and never aborts — a whole
`update_annotations_index` run over the remaining files. -/
theorem c7_scan_failure_isolated (path : Str) (file : Option (List (Option Str)))
    (h : file = none ∨ ∃ ls, file = some ls ∧ none ∈ ls) :
    scan_code_annotations path file = ([], true) ∧
    ∀ (idx : List (Str × List CodeAnnotation))
      (pre post : List (Str × Option (List (Option Str)))),
      update_annotations_index idx (pre ++ (path, file) :: post)
        = update_annotations_index idx (pre ++ post) := by
  have hscan : scan_code_annotations path file = ([], true) := by
    rcases h with rfl | ⟨ls, rfl, hls⟩
    · rfl
    · exact scanGo_bad path ls hls ls 1 hls
  refine ⟨hscan, ?_⟩
  intro idx pre post
  unfold update_annotations_index
  rw [List.foldl_append, List.foldl_append, List.foldl_cons]
  by_cases hs : skipPath path
  · simp [hs]
  · simp [hs, hscan]

/-- Witness for `c7_scan_failure_isolated`: a two-line file whose second
line does not decode. -/
theorem c7_scan_failure_isolated_witness :
    scan_code_annotations "f.ts".data (some [some "x".data, none]) = ([], true) ∧
    update_annotations_index [] [("f.ts".data, some [some "x".data, none])]
      = update_annotations_index [] [] := by
  have h := c7_scan_failure_isolated "f.ts".data (some [some "x".data, none])
    (Or.inr ⟨[some "x".data, none], rfl, by decide⟩)
  exact ⟨h.1, by simpa using h.2 [] [] []⟩

/-! ## Task status counting (C9) -/

/-- C9: `get_task_status` counts `total_tasks` as the occurrences of the
unchecked marker `- [ ]` only and `completed` as those of `- [x]`; content
with exactly 3 unchecked and 2 checked markers reports total 3, completed
2, progress "2/3". -/
theorem c9_task_counts (s : Str)
    (h1 : countOcc "- [ ]".data s = 3) (h2 : countOcc "- [x]".data s = 2) :
    ∃ t : TaskStatus, get_task_status (some s) = some t ∧
      t.total_tasks = 3 ∧ t.completed = 2 ∧ t.progress = "2/3".data := by
  refine ⟨⟨countOcc "- [ ]".data s, countOcc "- [x]".data s,
    natToStr (countOcc "- [x]".data s) ++ "/".data ++ natToStr (countOcc "- [ ]".data s),
    match searchGroup "**Status:**".data (fun c => c != '|' && c != '\n') s with
    | some g => pyStrip g
    | none => "Unknown".data⟩, rfl, h1, h2, ?_⟩
  rw [h1, h2]
  show natToStr 2 ++ "/".data ++ natToStr 3 = "2/3".data
  decide

/-- Witness for `c9_task_counts`: concrete content with exactly 3
unchecked and 2 checked markers. -/
theorem c9_task_counts_witness :
    ∃ t : TaskStatus,
      get_task_status (some "- [ ] a\n- [x] b\n- [ ] c\n- [x] d\n- [ ] e\n".data)
          = some t ∧
        t.total_tasks = 3 ∧ t.completed = 2 ∧ t.progress = "2/3".data :=
  c9_task_counts "- [ ] a\n- [x] b\n- [ ] c\n- [x] d\n- [ ] e\n".data
    (by decide) (by decide)

/-! ## Empty annotation timestamp in relevance lookup (C10) -/

theorem startsWith_nil (s : Str) : startsWith s [] = true := by
  cases s <;> rfl

theorem relevantFor_mem (st : MState) (agent : Str) (l : List CodeAnnotation)
    (ann : CodeAnnotation) (ha : ann ∈ l) (hts : ann.timestamp = [])
    (hne : ann.agent_name ≠ agent) (other : AgentContext)
    (ho : load_context st ann.agent_name = some other)
    (msg : Message) (hmsg : msg ∈ other.messages) :
    (⟨ann.agent_name, ann.task_ref, msg, ann.notes⟩ : RelEntry)
      ∈ relevantFor st agent l := by
  induction l with
  | nil => simp at ha
  | cons a rest ih =>
    rcases List.mem_cons.mp ha with h | h
    · subst h
      simp only [relevantFor, if_pos hne, ho, hts, List.take_nil]
      apply List.mem_append_left
      have hfil : other.messages.filter (fun m => startsWith m.timestamp ([] : Str))
          = other.messages :=
        List.filter_eq_self.mpr (fun m _ => startsWith_nil m.timestamp)
      rw [hfil]
      exact List.mem_map.mpr ⟨msg, hmsg, rfl⟩
    · simp only [relevantFor]
      exact List.mem_append_right _ (ih h)

/-- C10: an annotation whose timestamp is the empty string makes the
calendar-day filter `msg['timestamp'].startswith(ann.timestamp[:10])`
a prefix test against the empty string, which every message passes — so
every message of the other agent's loaded context is returned for that
annotation, regardless of its date. -/
theorem c10_empty_timestamp_matches_all
    (st : MState) (anns : List (Str × List CodeAnnotation)) (agent fp : Str)
    (l : List CodeAnnotation) (hl : lookupA anns fp = some l)
    (ann : CodeAnnotation) (ha : ann ∈ l) (hts : ann.timestamp = [])
    (hne : ann.agent_name ≠ agent)
    (other : AgentContext) (ho : load_context st ann.agent_name = some other) :
    ∀ msg ∈ other.messages,
      (⟨ann.agent_name, ann.task_ref, msg, ann.notes⟩ : RelEntry)
        ∈ get_relevant_context st anns agent fp := by
  intro msg hmsg
  simp only [get_relevant_context, hl]
  exact relevantFor_mem st agent l ann ha hts hne other ho msg hmsg

/-- Witness for `c10_empty_timestamp_matches_all`: an annotation by agent
"b" with empty timestamp on a file, queried for agent "a", returns "b"'s
message dated 2024-01-01. -/
theorem c10_empty_timestamp_matches_all_witness :
    (⟨"b".data, "T".data, ⟨"user".data, "m".data, "2024-01-01".data, 5⟩,
        "n".data⟩ : RelEntry)
      ∈ get_relevant_context
          ⟨[], [("b".data, ⟨"b".data, "ts".data, "t".data, 5, 200000,
            [⟨"user".data, "m".data, "2024-01-01".data, 5⟩]⟩)]⟩
          [("f.ts".data, [⟨"f.ts".data, 1, "b".data, [], "T".data, "n".data⟩])]
          "a".data "f.ts".data :=
  c10_empty_timestamp_matches_all
    ⟨[], [("b".data, ⟨"b".data, "ts".data, "t".data, 5, 200000,
      [⟨"user".data, "m".data, "2024-01-01".data, 5⟩]⟩)]⟩
    [("f.ts".data, [⟨"f.ts".data, 1, "b".data, [], "T".data, "n".data⟩])]
    "a".data "f.ts".data
    [⟨"f.ts".data, 1, "b".data, [], "T".data, "n".data⟩] (by decide)
    ⟨"f.ts".data, 1, "b".data, [], "T".data, "n".data⟩ (by decide) rfl (by decide)
    ⟨"b".data, "ts".data, "t".data, 5, 200000,
      [⟨"user".data, "m".data, "2024-01-01".data, 5⟩]⟩ (by decide)
    ⟨"user".data, "m".data, "2024-01-01".data, 5⟩ (by decide)

/-! ## The annotation index is merged, not replaced (C4) -/

/-- What one walked file contributes to the index: nothing when its path
is skipped or its scan is empty, else its path with the fresh scan
result. -/
def scanEntry (pf : Str × Option (List (Option Str))) :
    Option (Str × List CodeAnnotation) :=
  if skipPath pf.1 then none
  else
    let anns := (scan_code_annotations pf.1 pf.2).1
    if anns = [] then none else some (pf.1, anns)

/-- The last contribution for path `p` among the walked files, if any
(later files override earlier ones with the same path). -/
def lastScanOf (p : Str) : List (Str × Option (List (Option Str))) →
    Option (List CodeAnnotation)
  | [] => none
  | pf :: rest =>
    match lastScanOf p rest with
    | some a => some a
    | none =>
      match scanEntry pf with
      | some (q, a) => if q = p then some a else none
      | none => none

/-- C4 as the code actually behaves (amended claim): after
`update_annotations_index`, a path maps to the last non-empty scan result
the walk produced for it, and every other path — including files whose
scan produced zero annotations and files not in the walk — retains its
prior index entry; stale entries are never removed. -/
theorem c4_index_merge_semantics (idx : List (Str × List CodeAnnotation))
    (files : List (Str × Option (List (Option Str)))) (p : Str) :
    lookupA (update_annotations_index idx files) p =
      match lastScanOf p files with
      | some a => some a
      | none => lookupA idx p := by
  induction files generalizing idx with
  | nil => rfl
  | cons pf rest ih =>
    have hstep : update_annotations_index idx (pf :: rest)
        = update_annotations_index
            (match scanEntry pf with
             | some qa => insertA idx qa.1 qa.2
             | none => idx) rest := by
      unfold update_annotations_index scanEntry
      by_cases hs : skipPath pf.1
      · simp [hs]
      · by_cases he : (scan_code_annotations pf.1 pf.2).1 = []
        · simp [hs, he]
        · simp [hs, he]
    rw [hstep, ih]
    cases hrest : lastScanOf p rest with
    | some a => simp [lastScanOf, hrest]
    | none =>
      simp only [lastScanOf, hrest]
      cases hse : scanEntry pf with
      | none => simp
      | some qa =>
        simp only [lookupA_insertA]
        by_cases hq : qa.1 = p <;> simp [hq]

/-- Counterexample to C4 as stated: a prior index entry for `a.ts` with
one stale annotation, and a walk in which `a.ts` scans to zero
annotations.  The claim says the resulting index has no entry for `a.ts`;
the code keeps the stale entry untouched. -/
theorem c4_stale_entry_counterexample :
    (scan_code_annotations "a.ts".data (some [some "no markers here".data])).1 = [] ∧
    lookupA
        (update_annotations_index
          [("a.ts".data, [⟨"a.ts".data, 1, "alice".data, [], [], []⟩])]
          [("a.ts".data, some [some "no markers here".data])])
        "a.ts".data
      = some [⟨"a.ts".data, 1, "alice".data, [], [], []⟩] := by decide

/-! ## The lookahead window of the scanner (C3) -/

/-- Folding one companion marker over a window of lines: a later matching
line overwrites an earlier one (the source's `field = ...` assignment runs
on every matching line of the window), and the field stays the initial
accumulator when no line matches. -/
def fieldFold (marker : Str) (acc : Str) (w : List Str) : Str :=
  w.foldl
    (fun acc line =>
      match searchGroup marker (fun c => c != '\n') line with
      | some g => pyStrip g
      | none => acc)
    acc

/-- The field value the scanner extracts from a window: the last match in
the window, defaulting to the empty string. -/
def windowField (marker : Str) (w : List Str) : Str := fieldFold marker [] w

theorem searchGroup_some_contains (lit : Str) (ok : Char → Bool) (line : Str)
    (g : Str) (h : searchGroup lit ok line = some g) : containsPat lit line = true := by
  induction line with
  | nil => simp [searchGroup] at h
  | cons c cs ih =>
    rw [searchGroup] at h
    cases hm : matchLead lit (c :: cs) with
    | some r => simp [containsPat, afterFirst, hm]
    | none =>
      rw [hm] at h
      have := ih h
      simpa [containsPat, afterFirst, hm] using this

theorem fieldUpd_nocrash (marker line acc : Str)
    (h : containsPat marker line = true →
      searchGroup marker (fun c => c != '\n') line ≠ none) :
    fieldUpd marker line acc
      = some (match searchGroup marker (fun c => c != '\n') line with
              | some g => pyStrip g
              | none => acc) := by
  by_cases hc : containsPat marker line = true
  · cases hs : searchGroup marker (fun c => c != '\n') line with
    | none => exact absurd hs (h hc)
    | some g => simp [fieldUpd, hc, hs]
  · have hn : searchGroup marker (fun c => c != '\n') line = none := by
      cases hs : searchGroup marker (fun c => c != '\n') line with
      | none => rfl
      | some g => exact absurd (searchGroup_some_contains _ _ _ _ hs) hc
    simp [fieldUpd, hn]
    simp only [Bool.not_eq_true] at hc
    exact hc

theorem lookahead_fieldFold (w : List Str)
    (hw : ∀ line ∈ w, ∀ marker ∈ [tsMark, taskMark, notesMark],
      containsPat marker line = true →
        searchGroup marker (fun c => c != '\n') line ≠ none) :
    ∀ a b c : Str, lookahead w (a, b, c)
      = some (fieldFold tsMark a w, fieldFold taskMark b w, fieldFold notesMark c w) := by
  induction w with
  | nil => intro a b c; rfl
  | cons line rest ih =>
    intro a b c
    have hline := hw line (List.mem_cons_self line rest)
    have hrest : ∀ l ∈ rest, ∀ marker ∈ [tsMark, taskMark, notesMark],
        containsPat marker l = true →
          searchGroup marker (fun c => c != '\n') l ≠ none :=
      fun l hl => hw l (List.mem_cons_of_mem line hl)
    rw [lookahead,
      fieldUpd_nocrash tsMark line a (hline tsMark (by simp)),
      fieldUpd_nocrash taskMark line b (hline taskMark (by simp)),
      fieldUpd_nocrash notesMark line c (hline notesMark (by simp))]
    exact ih hrest _ _ _

theorem allDecoded_map (l : List Str) : allDecoded (l.map some) = some l := by
  induction l with
  | nil => rfl
  | cons x xs ih => simp [allDecoded, ih]

theorem scanGo_skip (path : Str) (file : List (Option Str)) :
    ∀ (pre : List Str) (tail : List (Option Str)) (n : Nat),
      (∀ l ∈ pre, anchorAgent l = none) →
      scanGo path file (pre.map some ++ tail) n = scanGo path file tail (n + pre.length) := by
  intro pre
  induction pre with
  | nil =>
    intro tail n _
    simp
  | cons l ls ih =>
    intro tail n hpre
    have hl : anchorAgent l = none := hpre l (List.mem_cons_self l ls)
    simp only [List.map_cons, List.cons_append, scanGo, hl, List.append_eq]
    rw [ih tail (n + 1) (fun x hx => hpre x (List.mem_cons_of_mem l hx))]
    congr 1
    simp only [List.length_cons]
    omega

/-- C3 as the code actually behaves (amended claim): for the first anchor
line matched by the `@agent:` pattern — the source produces at most one
annotation per file, since `f.seek(0); f.readlines()` leaves the iterator
at EOF — the scanner inspects at most the 5 lines following the anchor
(`range(line_num, min(line_num + 5, len(lines)))` over the 0-based
`readlines` list), takes the LAST match found in that window for each of
`@timestamp:` / `@task:` / `@notes:`, and leaves a field empty when its
marker does not occur in the window; in particular a file containing
`@agent: foo` and nothing else yields one annotation with empty
timestamp, task and notes. -/
theorem c3_window_semantics (path : Str) (pre post : List Str) (anchor agent : Str)
    (hpre : ∀ l ∈ pre, anchorAgent l = none)
    (hanchor : anchorAgent anchor = some agent)
    (hw : ∀ line ∈ post.take 5, ∀ marker ∈ [tsMark, taskMark, notesMark],
      containsPat marker line = true →
        searchGroup marker (fun c => c != '\n') line ≠ none) :
    scan_code_annotations path (some ((pre ++ anchor :: post).map some))
      = ([⟨path, pre.length + 1, agent,
          windowField tsMark (post.take 5),
          windowField taskMark (post.take 5),
          windowField notesMark (post.take 5)⟩], false) := by
  show scanGo path ((pre ++ anchor :: post).map some)
      ((pre ++ anchor :: post).map some) 1
    = ([⟨path, pre.length + 1, agent,
        windowField tsMark (post.take 5),
        windowField taskMark (post.take 5),
        windowField notesMark (post.take 5)⟩], false)
  have hmap : (pre ++ anchor :: post).map some
      = pre.map some ++ (some anchor :: post.map some) := by
    simp
  have hstep : scanGo path ((pre ++ anchor :: post).map some)
        ((pre ++ anchor :: post).map some) 1
      = scanGo path ((pre ++ anchor :: post).map some)
        (some anchor :: post.map some) (1 + pre.length) := by
    have h := scanGo_skip path ((pre ++ anchor :: post).map some) pre
      (some anchor :: post.map some) 1 hpre
    rw [← hmap] at h
    exact h
  have hdrop : (pre ++ anchor :: post).drop (pre.length + 1) = post := by
    have h1 : pre ++ anchor :: post = (pre ++ [anchor]) ++ post := by simp
    have h2 : pre.length + 1 = (pre ++ [anchor]).length := by simp
    rw [h1, h2, List.drop_left]
  rw [hstep]
  simp only [scanGo, hanchor, allDecoded_map, hdrop,
    lookahead_fieldFold (post.take 5) hw [] [] [], Nat.add_comm 1 pre.length]
  rfl

/-- Counterexample to C3 as stated: anchor on line 1, `@task: first` on
the 4th following line (inside the claimed 4-line window, the first
match), `@task: second` on the 5th following line (outside the claimed
window).  The claim predicts task_ref "first"; the code inspects 5
following lines and keeps the LAST match, producing "second". -/
theorem c3_window_counterexample :
    scan_code_annotations "f.ts".data
        (some (["@agent: foo".data, "x".data, "x".data, "x".data,
                "@task: first".data, "@task: second".data].map some))
      = ([⟨"f.ts".data, 1, "foo".data, [], "second".data, []⟩], false) ∧
    ("second".data : Str) ≠ "first".data := by decide

/-- Witness for `c3_window_semantics`: a file holding only `@agent: foo`
yields one annotation with all companion fields empty. -/
theorem c3_window_semantics_witness :
    scan_code_annotations "f.ts".data (some [some "@agent: foo".data])
      = ([⟨"f.ts".data, 1, "foo".data, [], [], []⟩], false) :=
  c3_window_semantics "f.ts".data [] [] "@agent: foo".data "foo".data
    (by intro l hl; simp at hl) (by decide)
    (by intro line hline; simp at hline)

end FXD

